import Mathlib

/-!
Verification of the webview element bridge
(`src/vs/workbench/contrib/webview/electron-browser/webviewElement.ts`).

The development shallowly embeds the classes of that file:

* `WebviewTagHandle` (session cache, `onFirstLoad` wiring),
* `WebviewSession` (the ordered request / header delegate pipelines),
* `WebviewProtocolProvider` (custom-scheme resource permission wiring),
* `ElectronWebviewBasedWebview` (content descriptor setters, content push,
  focus bridging, the find protocol, and the `on` channel dispatcher).

Stateful code is embedded as explicit state passing; observable side
effects (fired events, outbound messages) are collected in lists.
-/

namespace WebviewElement

/-! ## WebviewSession: the request interception pipeline (lines 82-124)

`onBeforeRequest` delegates have type
`(details) => Promise<Response | undefined>`; the wired handler awaits each
delegate in registration order, invokes the callback with the first defined
result and stops, and invokes `callback({})` when every delegate returned
`undefined`.  `onHeadersReceived` delegates are synchronous, returning
`{ cancel: boolean } | undefined`; the default callback is
`{ cancel: false, responseHeaders: details.responseHeaders }`. -/

structure OnBeforeRequestDetails where
  url : String
deriving DecidableEq, Repr

/-- The electron `Response` object passed to the `onBeforeRequest` callback:
an optional cancellation flag and an optional redirect URL. -/
structure BeforeRequestResponse where
  cancel : Option Bool
  redirectURL : Option String
deriving DecidableEq, Repr

/-- `callback({})`: the default passthrough — no redirect and no denial. -/
def passthroughResponse : BeforeRequestResponse :=
  { cancel := none, redirectURL := none }

structure OnHeadersReceivedDetails where
  url : String
  responseHeaders : List (String × String)
deriving DecidableEq, Repr

/-- The argument the `onHeadersReceived` callback receives: a cancellation
flag and, optionally, response headers.  A delegate result
(`{ cancel: boolean }`) carries no headers; the default passthrough carries
the original headers. -/
structure HeadersCallbackArg where
  cancel : Bool
  responseHeaders : Option (List (String × String))
deriving DecidableEq, Repr

/-- The `onBeforeRequest` handler of `WebviewSession` (lines 93-102),
instrumented with the number of delegates that were evaluated.  Returns the
argument passed to the electron callback together with that count. -/
def runBeforeRequestTrace
    (delegates : List (OnBeforeRequestDetails → Option BeforeRequestResponse))
    (details : OnBeforeRequestDetails) : BeforeRequestResponse × Nat :=
  match delegates with
  | [] => (passthroughResponse, 0)
  | d :: rest =>
    match d details with
    | some result => (result, 1)
    | none =>
      let p := runBeforeRequestTrace rest details
      (p.1, p.2 + 1)

/-- The `onHeadersReceived` handler of `WebviewSession` (lines 104-113),
instrumented with the number of delegates that were evaluated.  A delegate
returns `Option Bool`, embedding `{ cancel: boolean } | undefined`. -/
def runHeadersReceivedTrace
    (delegates : List (OnHeadersReceivedDetails → Option Bool))
    (details : OnHeadersReceivedDetails) : HeadersCallbackArg × Nat :=
  match delegates with
  | [] => ({ cancel := false, responseHeaders := some details.responseHeaders }, 0)
  | d :: rest =>
    match d details with
    | some cancelFlag => ({ cancel := cancelFlag, responseHeaders := none }, 1)
    | none =>
      let p := runHeadersReceivedTrace rest details
      (p.1, p.2 + 1)

theorem runBeforeRequestTrace_cons_none
    {d : OnBeforeRequestDetails → Option BeforeRequestResponse}
    {details : OnBeforeRequestDetails} (h : d details = none)
    (rest : List (OnBeforeRequestDetails → Option BeforeRequestResponse)) :
    runBeforeRequestTrace (d :: rest) details =
      ((runBeforeRequestTrace rest details).1,
       (runBeforeRequestTrace rest details).2 + 1) := by
  simp [runBeforeRequestTrace, h]

theorem runHeadersReceivedTrace_cons_none
    {d : OnHeadersReceivedDetails → Option Bool}
    {details : OnHeadersReceivedDetails} (h : d details = none)
    (rest : List (OnHeadersReceivedDetails → Option Bool)) :
    runHeadersReceivedTrace (d :: rest) details =
      ((runHeadersReceivedTrace rest details).1,
       (runHeadersReceivedTrace rest details).2 + 1) := by
  simp [runHeadersReceivedTrace, h]

/-- C1: For every request event and every delegate list, the pipeline
evaluates delegates strictly in registration order, applies the result of
the first delegate returning a defined action after evaluating exactly the
delegates up to and including it (so no delegate after it is evaluated),
and when every delegate returns "no opinion" it applies default
passthrough: the request callback receives no redirect and no denial
(`callback({})`), the headers callback receives
`{cancel: false, responseHeaders: original}`. -/
theorem C1_pipeline_order_short_circuit_default :
    (∀ (l1 l2 : List (OnBeforeRequestDetails → Option BeforeRequestResponse))
       (d : OnBeforeRequestDetails → Option BeforeRequestResponse)
       (details : OnBeforeRequestDetails) (r : BeforeRequestResponse),
       (∀ d2 ∈ l1, d2 details = none) → d details = some r →
       runBeforeRequestTrace (l1 ++ d :: l2) details = (r, l1.length + 1)) ∧
    (∀ (ds : List (OnBeforeRequestDetails → Option BeforeRequestResponse))
       (details : OnBeforeRequestDetails),
       (∀ d2 ∈ ds, d2 details = none) →
       runBeforeRequestTrace ds details = (passthroughResponse, ds.length)) ∧
    (∀ (l1 l2 : List (OnHeadersReceivedDetails → Option Bool))
       (d : OnHeadersReceivedDetails → Option Bool)
       (details : OnHeadersReceivedDetails) (b : Bool),
       (∀ d2 ∈ l1, d2 details = none) → d details = some b →
       runHeadersReceivedTrace (l1 ++ d :: l2) details =
         ({ cancel := b, responseHeaders := none }, l1.length + 1)) ∧
    (∀ (ds : List (OnHeadersReceivedDetails → Option Bool))
       (details : OnHeadersReceivedDetails),
       (∀ d2 ∈ ds, d2 details = none) →
       runHeadersReceivedTrace ds details =
         ({ cancel := false, responseHeaders := some details.responseHeaders },
          ds.length)) := by
  refine ⟨?_, ?_, ?_, ?_⟩
  · intro l1 l2 d details r hnone hd
    induction l1 with
    | nil => simp [runBeforeRequestTrace, hd]
    | cons a as ih =>
      have ha : a details = none := hnone a (by simp)
      have hrest : ∀ d2 ∈ as, d2 details = none := fun d2 h => hnone d2 (by simp [h])
      rw [List.cons_append, runBeforeRequestTrace_cons_none ha, ih hrest]
      simp
  · intro ds details hnone
    induction ds with
    | nil => rfl
    | cons a as ih =>
      have ha : a details = none := hnone a (by simp)
      have hrest : ∀ d2 ∈ as, d2 details = none := fun d2 h => hnone d2 (by simp [h])
      rw [runBeforeRequestTrace_cons_none ha, ih hrest]
      simp
  · intro l1 l2 d details b hnone hd
    induction l1 with
    | nil => simp [runHeadersReceivedTrace, hd]
    | cons a as ih =>
      have ha : a details = none := hnone a (by simp)
      have hrest : ∀ d2 ∈ as, d2 details = none := fun d2 h => hnone d2 (by simp [h])
      rw [List.cons_append, runHeadersReceivedTrace_cons_none ha, ih hrest]
      simp
  · intro ds details hnone
    induction ds with
    | nil => rfl
    | cons a as ih =>
      have ha : a details = none := hnone a (by simp)
      have hrest : ∀ d2 ∈ as, d2 details = none := fun d2 h => hnone d2 (by simp [h])
      rw [runHeadersReceivedTrace_cons_none ha, ih hrest]
      simp

/-- Sample request details for concrete evaluations. -/
def detailsSample : OnBeforeRequestDetails := { url := "http://a/b" }

/-- A request delegate with no opinion. -/
def dNoOpinion : OnBeforeRequestDetails → Option BeforeRequestResponse :=
  fun _ => none

/-- A request delegate redirecting every request to `https://x/y`. -/
def dRedirect : OnBeforeRequestDetails → Option BeforeRequestResponse :=
  fun _ => some { cancel := none, redirectURL := some "https://x/y" }

/-- Sample header details for concrete evaluations. -/
def headersDetailsSample : OnHeadersReceivedDetails :=
  { url := "http://a/b", responseHeaders := [("x-h", "v")] }

/-- A header delegate with no opinion. -/
def hNoOpinion : OnHeadersReceivedDetails → Option Bool := fun _ => none

/-- A header delegate cancelling every response. -/
def hCancel : OnHeadersReceivedDetails → Option Bool := fun _ => some true

theorem C1_pipeline_order_short_circuit_default_witness :
    runBeforeRequestTrace [dNoOpinion, dRedirect, dNoOpinion] detailsSample =
      ({ cancel := none, redirectURL := some "https://x/y" }, 2) ∧
    runBeforeRequestTrace [dNoOpinion, dNoOpinion] detailsSample =
      (passthroughResponse, 2) ∧
    runHeadersReceivedTrace [hNoOpinion, hCancel] headersDetailsSample =
      ({ cancel := true, responseHeaders := none }, 2) ∧
    runHeadersReceivedTrace [hNoOpinion] headersDetailsSample =
      ({ cancel := false, responseHeaders := some [("x-h", "v")] }, 1) := by
  have h := C1_pipeline_order_short_circuit_default
  refine ⟨?_, ?_, ?_, ?_⟩
  · have := h.1 [dNoOpinion] [dNoOpinion] dRedirect detailsSample
      { cancel := none, redirectURL := some "https://x/y" }
      (by intro d2 hm; simp only [List.mem_singleton] at hm; subst hm; rfl) rfl
    simpa using this
  · have := h.2.1 [dNoOpinion, dNoOpinion] detailsSample
      (by intro d2 hm
          simp only [List.mem_cons, List.not_mem_nil, or_false] at hm
          rcases hm with hm | hm <;> (subst hm; rfl))
    simpa using this
  · have := h.2.2.1 [hNoOpinion] [] hCancel headersDetailsSample true
      (by intro d2 hm; simp only [List.mem_singleton] at hm; subst hm; rfl) rfl
    simpa using this
  · have := h.2.2.2 [hNoOpinion] headersDetailsSample
      (by intro d2 hm; simp only [List.mem_singleton] at hm; subst hm; rfl)
    simpa using this

/-! ## Delegate failure (claim C2)

The wired handlers (lines 93-102 and 104-113) contain no try/catch: a
delegate that throws (or whose promise rejects) propagates out of the
handler, the electron callback is never invoked, and no later delegate
runs.  We embed possibly-failing delegates with `Except String`: `.error e`
is a thrown exception / rejected promise. -/

/-- The `onBeforeRequest` handler over possibly-failing delegates, with the
count of delegates evaluated.  `.error e` as the first component means the
handler itself failed: the callback was never invoked. -/
def runBeforeRequestExc
    (delegates :
      List (OnBeforeRequestDetails → Except String (Option BeforeRequestResponse)))
    (details : OnBeforeRequestDetails) :
    Except String BeforeRequestResponse × Nat :=
  match delegates with
  | [] => (.ok passthroughResponse, 0)
  | d :: rest =>
    match d details with
    | .error e => (.error e, 1)
    | .ok (some result) => (.ok result, 1)
    | .ok none =>
      let p := runBeforeRequestExc rest details
      (p.1, p.2 + 1)

/-- The `onHeadersReceived` handler over possibly-failing delegates, with
the count of delegates evaluated. -/
def runHeadersReceivedExc
    (delegates : List (OnHeadersReceivedDetails → Except String (Option Bool)))
    (details : OnHeadersReceivedDetails) :
    Except String HeadersCallbackArg × Nat :=
  match delegates with
  | [] => (.ok { cancel := false, responseHeaders := some details.responseHeaders }, 0)
  | d :: rest =>
    match d details with
    | .error e => (.error e, 1)
    | .ok (some cancelFlag) => (.ok { cancel := cancelFlag, responseHeaders := none }, 1)
    | .ok none =>
      let p := runHeadersReceivedExc rest details
      (p.1, p.2 + 1)

/-- The behaviour claim C2 asserts, stated as a definition to compare with
`runBeforeRequestExc`: a failing delegate is treated exactly as if it had
returned "no opinion" and evaluation continues with the next delegate. -/
def runBeforeRequestSkipFail
    (delegates :
      List (OnBeforeRequestDetails → Except String (Option BeforeRequestResponse)))
    (details : OnBeforeRequestDetails) : BeforeRequestResponse :=
  match delegates with
  | [] => passthroughResponse
  | d :: rest =>
    match d details with
    | .error _ => runBeforeRequestSkipFail rest details
    | .ok (some result) => result
    | .ok none => runBeforeRequestSkipFail rest details

/-- A request delegate that throws. -/
def dThrow : OnBeforeRequestDetails → Except String (Option BeforeRequestResponse) :=
  fun _ => .error "boom"

/-- A possibly-failing request delegate that redirects every request. -/
def dRedirectExc : OnBeforeRequestDetails → Except String (Option BeforeRequestResponse) :=
  fun _ => .ok (some { cancel := none, redirectURL := some "https://x/y" })

theorem C2_delegate_failure_counterexample :
    (runBeforeRequestExc [dThrow, dRedirectExc] detailsSample).1 = .error "boom" ∧
    runBeforeRequestSkipFail [dThrow, dRedirectExc] detailsSample =
      { cancel := none, redirectURL := some "https://x/y" } ∧
    (runBeforeRequestExc [dThrow, dRedirectExc] detailsSample).1 ≠
      .ok (runBeforeRequestSkipFail [dThrow, dRedirectExc] detailsSample) ∧
    (runBeforeRequestExc [dThrow, dRedirectExc] detailsSample).2 = 1 := by
  refine ⟨rfl, rfl, ?_, rfl⟩
  intro hcontra
  simp [runBeforeRequestExc, runBeforeRequestSkipFail, dThrow, dRedirectExc] at hcontra

/-- C2 (amended): a request or header delegate that throws is not treated
as "no opinion": the failure propagates out of the handler after exactly
the delegates up to and including the failing one were evaluated, no later
delegate runs, and the electron callback is never invoked (neither with a
delegate action nor with the default passthrough), so handling of the
surrounding request is aborted. -/
theorem C2_delegate_failure_propagates :
    (∀ (l1 l2 : List (OnBeforeRequestDetails → Except String (Option BeforeRequestResponse)))
       (d : OnBeforeRequestDetails → Except String (Option BeforeRequestResponse))
       (details : OnBeforeRequestDetails) (e : String),
       (∀ d2 ∈ l1, d2 details = .ok none) → d details = .error e →
       runBeforeRequestExc (l1 ++ d :: l2) details = (.error e, l1.length + 1)) ∧
    (∀ (l1 l2 : List (OnHeadersReceivedDetails → Except String (Option Bool)))
       (d : OnHeadersReceivedDetails → Except String (Option Bool))
       (details : OnHeadersReceivedDetails) (e : String),
       (∀ d2 ∈ l1, d2 details = .ok none) → d details = .error e →
       runHeadersReceivedExc (l1 ++ d :: l2) details = (.error e, l1.length + 1)) := by
  constructor
  · intro l1 l2 d details e hnone hd
    induction l1 with
    | nil => simp [runBeforeRequestExc, hd]
    | cons a as ih =>
      have ha : a details = .ok none := hnone a (by simp)
      have hrest : ∀ d2 ∈ as, d2 details = .ok none := fun d2 h => hnone d2 (by simp [h])
      rw [List.cons_append]
      simp only [runBeforeRequestExc, ha, ih hrest]
      simp
  · intro l1 l2 d details e hnone hd
    induction l1 with
    | nil => simp [runHeadersReceivedExc, hd]
    | cons a as ih =>
      have ha : a details = .ok none := hnone a (by simp)
      have hrest : ∀ d2 ∈ as, d2 details = .ok none := fun d2 h => hnone d2 (by simp [h])
      rw [List.cons_append]
      simp only [runHeadersReceivedExc, ha, ih hrest]
      simp

/-- A possibly-failing request delegate with no opinion. -/
def dNoOpinionExc : OnBeforeRequestDetails → Except String (Option BeforeRequestResponse) :=
  fun _ => .ok none

/-- A possibly-failing header delegate with no opinion. -/
def hNoOpinionExc : OnHeadersReceivedDetails → Except String (Option Bool) :=
  fun _ => .ok none

/-- A header delegate that throws. -/
def hThrow : OnHeadersReceivedDetails → Except String (Option Bool) :=
  fun _ => .error "boom"

theorem C2_delegate_failure_propagates_witness :
    runBeforeRequestExc [dNoOpinionExc, dThrow, dRedirectExc] detailsSample =
      (.error "boom", 2) ∧
    runHeadersReceivedExc [hNoOpinionExc, hThrow] headersDetailsSample =
      (.error "boom", 2) := by
  have h := C2_delegate_failure_propagates
  constructor
  · have := h.1 [dNoOpinionExc] [dRedirectExc] dThrow detailsSample "boom"
      (by intro d2 hm; simp only [List.mem_singleton] at hm; subst hm; rfl) rfl
    simpa using this
  · have := h.2 [hNoOpinionExc] [] hThrow headersDetailsSample "boom"
      (by intro d2 hm; simp only [List.mem_singleton] at hm; subst hm; rfl) rfl
    simpa using this

/-! ## WebviewProtocolProvider (lines 126-145, constructor lines 270-274)

`registerProtocols` (line 140-144) calls
`registerFileProtocol(contents, scheme, fileService, this._getExtensionLocation(), () => this._getLocalResourceRoots())`:
the extension-location accessor is *invoked once* at protocol-registration
time and its value is passed, while the local-resource-roots accessor is
passed as a thunk.  Accessors are embedded as functions of the bridge
environment; a request carries the environment current at request time. -/

/-- The mutable bridge environment the accessor callbacks of the
constructor (lines 272-273) read: `this.extension?.location` and
`this.content.options.localResourceRoots || []`.  Paths are lists of
segments. -/
structure WebviewEnv where
  extensionLocation : Option (List String)
  localResourceRoots : List (List String)

/-- Segment-wise path containment: `isPathUnder root path` holds when
`path` is a descendant of `root`. -/
def isPathUnder : List String → List String → Bool
  | [], _ => true
  | _ :: _, [] => false
  | r :: rs, p :: ps => r == p && isPathUnder rs ps

/-- What `registerProtocols` fixes for the lifetime of the registration: a
*value* for the extension location (accessor already invoked) and a *thunk*
for the local resource roots. -/
structure RegisteredProtocol where
  extensionLocation : Option (List String)
  getLocalResourceRoots : WebviewEnv → List (List String)

/-- `WebviewProtocolProvider.registerProtocols` (lines 140-144): evaluates
`_getExtensionLocation()` in the environment current at first load and
passes the roots accessor through unevaluated. -/
def registerProtocols
    (getExtensionLocation : WebviewEnv → Option (List String))
    (getLocalResourceRoots : WebviewEnv → List (List String))
    (envAtFirstLoad : WebviewEnv) : RegisteredProtocol :=
  { extensionLocation := getExtensionLocation envAtFirstLoad
    getLocalResourceRoots := getLocalResourceRoots }

/-- Modelled from the spec: `registerFileProtocol` (in
`electron-browser/webviewProtocols.ts`, not under `src/`) serves a
custom-scheme request iff its target path is a descendant of the extension
install location it was handed or of one of the local resource roots
obtained from the thunk at request time; otherwise it fails closed
(denied). -/
def handleResourceRequest (reg : RegisteredProtocol) (envNow : WebviewEnv)
    (path : List String) : Bool :=
  let roots :=
    (match reg.extensionLocation with
     | some e => [e]
     | none => []) ++ reg.getLocalResourceRoots envNow
  roots.any (fun r => isPathUnder r path)

/-- The behaviour claim C3 asserts, stated as a definition to compare with
`registerProtocols` + `handleResourceRequest`: *both* accessors are
re-evaluated in the environment current at request time. -/
def handleResourceRequestClaim
    (getExtensionLocation : WebviewEnv → Option (List String))
    (getLocalResourceRoots : WebviewEnv → List (List String))
    (envNow : WebviewEnv) (path : List String) : Bool :=
  let roots :=
    (match getExtensionLocation envNow with
     | some e => [e]
     | none => []) ++ getLocalResourceRoots envNow
  roots.any (fun r => isPathUnder r path)

/-- The extension-location accessor of the constructor (line 272). -/
def getExtensionLocationAccessor : WebviewEnv → Option (List String) :=
  WebviewEnv.extensionLocation

/-- The local-resource-roots accessor of the constructor (line 273). -/
def getLocalResourceRootsAccessor : WebviewEnv → List (List String) :=
  WebviewEnv.localResourceRoots

theorem isPathUnder_self : ∀ p : List String, isPathUnder p p = true := by
  intro p
  induction p with
  | nil => rfl
  | cons a as ih => simp [isPathUnder, ih]

theorem C3_per_request_accessors_counterexample :
    handleResourceRequest
        (registerProtocols getExtensionLocationAccessor getLocalResourceRootsAccessor
          { extensionLocation := none, localResourceRoots := [] })
        { extensionLocation := some ["ext"], localResourceRoots := [] }
        ["ext", "a"] = false ∧
    handleResourceRequestClaim getExtensionLocationAccessor getLocalResourceRootsAccessor
        { extensionLocation := some ["ext"], localResourceRoots := [] }
        ["ext", "a"] = true := by
  constructor <;> rfl

/-- C3 (amended): only the local resource root set is live — it is obtained
from its accessor at each request, so changing it between two identical
requests changes the allow/deny outcome of the second request without
re-registration; the extension install location, by contrast, is evaluated
once when the protocol is registered, and changing it afterwards never
affects the outcome of a request. -/
theorem C3_roots_live_extension_location_captured :
    (∀ (env0 env1 env2 : WebviewEnv) (path : List String),
       env1.localResourceRoots = env2.localResourceRoots →
       handleResourceRequest
           (registerProtocols getExtensionLocationAccessor
             getLocalResourceRootsAccessor env0) env1 path =
         handleResourceRequest
           (registerProtocols getExtensionLocationAccessor
             getLocalResourceRootsAccessor env0) env2 path) ∧
    (∀ (env0 env1 env2 : WebviewEnv) (path : List String),
       env0.extensionLocation = none →
       env1.localResourceRoots = [] →
       env2.localResourceRoots = [path] →
       handleResourceRequest
           (registerProtocols getExtensionLocationAccessor
             getLocalResourceRootsAccessor env0) env1 path = false ∧
       handleResourceRequest
           (registerProtocols getExtensionLocationAccessor
             getLocalResourceRootsAccessor env0) env2 path = true) := by
  constructor
  · intro env0 env1 env2 path hroots
    simp [handleResourceRequest, registerProtocols,
      getLocalResourceRootsAccessor, hroots]
  · intro env0 env1 env2 path hext h1 h2
    constructor
    · simp [handleResourceRequest, registerProtocols,
        getExtensionLocationAccessor, getLocalResourceRootsAccessor, hext, h1]
    · simp [handleResourceRequest, registerProtocols,
        getExtensionLocationAccessor, getLocalResourceRootsAccessor, hext, h2,
        isPathUnder_self]

theorem C3_roots_live_extension_location_captured_witness :
    (handleResourceRequest
        (registerProtocols getExtensionLocationAccessor getLocalResourceRootsAccessor
          { extensionLocation := none, localResourceRoots := [] })
        { extensionLocation := none, localResourceRoots := [["root"]] }
        ["root", "file"] =
      handleResourceRequest
        (registerProtocols getExtensionLocationAccessor getLocalResourceRootsAccessor
          { extensionLocation := none, localResourceRoots := [] })
        { extensionLocation := some ["other"], localResourceRoots := [["root"]] }
        ["root", "file"]) ∧
    (handleResourceRequest
        (registerProtocols getExtensionLocationAccessor getLocalResourceRootsAccessor
          { extensionLocation := none, localResourceRoots := [] })
        { extensionLocation := none, localResourceRoots := [] }
        ["root", "file"] = false ∧
     handleResourceRequest
        (registerProtocols getExtensionLocationAccessor getLocalResourceRootsAccessor
          { extensionLocation := none, localResourceRoots := [] })
        { extensionLocation := none, localResourceRoots := [["root", "file"]] }
        ["root", "file"] = true) := by
  have h := C3_roots_live_extension_location_captured
  constructor
  · exact h.1 { extensionLocation := none, localResourceRoots := [] }
      { extensionLocation := none, localResourceRoots := [["root"]] }
      { extensionLocation := some ["other"], localResourceRoots := [["root"]] }
      ["root", "file"] rfl
  · exact h.2 { extensionLocation := none, localResourceRoots := [] }
      { extensionLocation := none, localResourceRoots := [] }
      { extensionLocation := none, localResourceRoots := [["root", "file"]] }
      ["root", "file"] rfl rfl rfl

/-! ## WebviewTagHandle (lines 40-77)

`_webContents` holds `undefined`, a live `WebContents`, or the string
sentinel `'destroyed'`.  The `webContents` getter (lines 67-76) returns
`undefined` on the sentinel, the cached reference when one is held, and
otherwise assigns `this.webview.getWebContents()` (modelled as the `peer`
argument: what the embedded surface would return at that instant) and
returns it.  Session references are modelled as `Nat`. -/

/-- The `_webContents` field: `undefined`, the `'destroyed'` sentinel, or a
cached live reference. -/
inductive CachedContents where
  | unset
  | destroyedSentinel
  | cached (w : Nat)
deriving DecidableEq, Repr

/-- The `webContents` getter (lines 67-76): result returned to the caller
and the updated `_webContents` field. -/
def webContentsGet (peer : Option Nat) (c : CachedContents) :
    Option Nat × CachedContents :=
  match c with
  | .destroyedSentinel => (none, .destroyedSentinel)
  | .cached w => (some w, .cached w)
  | .unset =>
    match peer with
    | some w => (some w, .cached w)
    | none => (none, .unset)

/-- Surface lifecycle events consumed by the handle: the `'destroyed'`
listener (lines 49-51) and the `'did-start-loading'` listener (lines
53-61).  `peer` is what `getWebContents()` would return at that event. -/
inductive TagEvent where
  | destroyedEv
  | didStartLoading (peer : Option Nat)
deriving DecidableEq, Repr

/-- Handle state: the `_webContents` field, the consumed flag of the
`once(...)` wrapper around the `'did-start-loading'` listener body, and the
references carried by `_onFirstLoad.fire` so far. -/
structure TagHandleState where
  cache : CachedContents
  firstLoadConsumed : Bool
  fired : List Nat
deriving DecidableEq, Repr

def initTagHandle : TagHandleState :=
  { cache := .unset, firstLoadConsumed := false, fired := [] }

/-- Modelled from the spec: `once` (from `vs/base/common/functional.ts`,
not under `src/`) wraps a function so that the wrapped body runs only on
the first invocation — realising the spec's "fires exactly once" — which
the consumed flag records.  The body (lines 54-60) reads the
`webContents` getter and fires `_onFirstLoad` iff it obtained a
reference. -/
def tagStep (s : TagHandleState) : TagEvent → TagHandleState
  | .destroyedEv =>
    { cache := .destroyedSentinel
      firstLoadConsumed := s.firstLoadConsumed
      fired := s.fired }
  | .didStartLoading peer =>
    if s.firstLoadConsumed then s
    else
      let r := webContentsGet peer s.cache
      match r.1 with
      | some w =>
        { cache := r.2, firstLoadConsumed := true, fired := s.fired ++ [w] }
      | none => { cache := r.2, firstLoadConsumed := true, fired := s.fired }

/-- Run the handle over a sequence of surface lifecycle events. -/
def tagRun (evs : List TagEvent) : TagHandleState :=
  evs.foldl tagStep initTagHandle

/-- What the code does, as a recursive specification: `_onFirstLoad` can
fire only at the *first* `did-start-loading` event, and does so iff the
surface was not yet destroyed and a reference was obtainable there. -/
def firstLoadCodeSpec : List TagEvent → Bool → List Nat
  | [], _ => []
  | .destroyedEv :: rest, _ => firstLoadCodeSpec rest true
  | .didStartLoading peer :: _, destroyed =>
    match destroyed, peer with
    | false, some w => [w]
    | _, _ => []

/-- The behaviour claim C4 asserts, stated as a definition: `onFirstLoad`
fires at the first `did-start-loading` event *at which* a reference is
obtainable (and the surface not yet destroyed), skipping earlier signals
where acquisition failed. -/
def firstLoadClaimSpec : List TagEvent → Bool → List Nat
  | [], _ => []
  | .destroyedEv :: rest, _ => firstLoadClaimSpec rest true
  | .didStartLoading peer :: rest, destroyed =>
    match destroyed, peer with
    | false, some w => [w]
    | _, _ => firstLoadClaimSpec rest destroyed

theorem C4_first_load_counterexample :
    (tagRun [.didStartLoading none, .didStartLoading (some 5)]).fired = [] ∧
    firstLoadClaimSpec [.didStartLoading none, .didStartLoading (some 5)] false
      = [5] := by
  constructor <;> rfl

theorem tagRun_consumed (evs : List TagEvent) :
    ∀ s : TagHandleState, s.firstLoadConsumed = true →
      (List.foldl tagStep s evs).fired = s.fired := by
  induction evs with
  | nil => intro s _; rfl
  | cons e rest ih =>
    intro s hs
    cases e with
    | destroyedEv =>
      simp only [List.foldl_cons, tagStep]
      exact ih _ hs
    | didStartLoading peer =>
      simp only [List.foldl_cons, tagStep, hs, if_true]
      exact ih s hs

theorem tagRun_fresh (evs : List TagEvent) :
    ∀ b : Bool,
      (List.foldl tagStep
        { cache := if b then .destroyedSentinel else .unset
          firstLoadConsumed := false, fired := [] } evs).fired =
      firstLoadCodeSpec evs b := by
  induction evs with
  | nil => intro b; rfl
  | cons e rest ih =>
    intro b
    cases e with
    | destroyedEv =>
      have step :
          tagStep
            { cache := if b then .destroyedSentinel else .unset
              firstLoadConsumed := false, fired := [] } .destroyedEv =
          { cache := if true then CachedContents.destroyedSentinel else .unset
            firstLoadConsumed := false, fired := [] } := by
        cases b <;> rfl
      rw [List.foldl_cons, step, ih true]
      rfl
    | didStartLoading peer =>
      cases b with
      | true =>
        rw [List.foldl_cons]
        have step :
            tagStep
              { cache := if true then CachedContents.destroyedSentinel else .unset
                firstLoadConsumed := false, fired := [] }
              (.didStartLoading peer) =
            { cache := .destroyedSentinel, firstLoadConsumed := true,
              fired := [] } := by
          rfl
        rw [step, tagRun_consumed rest _ rfl]
        rfl
      | false =>
        rw [List.foldl_cons]
        cases peer with
        | some w =>
          have step :
              tagStep
                { cache := if false then CachedContents.destroyedSentinel else .unset
                  firstLoadConsumed := false, fired := [] }
                (.didStartLoading (some w)) =
              { cache := .cached w, firstLoadConsumed := true, fired := [w] } := by
            rfl
          rw [step, tagRun_consumed rest _ rfl]
          rfl
        | none =>
          have step :
              tagStep
                { cache := if false then CachedContents.destroyedSentinel else .unset
                  firstLoadConsumed := false, fired := [] }
                (.didStartLoading none) =
              { cache := .unset, firstLoadConsumed := true, fired := [] } := by
            rfl
          rw [step, tagRun_consumed rest _ rfl]
          rfl

theorem firstLoadCodeSpec_length (evs : List TagEvent) :
    ∀ b : Bool, (firstLoadCodeSpec evs b).length ≤ 1 := by
  induction evs with
  | nil => intro b; simp [firstLoadCodeSpec]
  | cons e rest ih =>
    intro b
    cases e with
    | destroyedEv => exact ih true
    | didStartLoading peer =>
      cases b <;> cases peer <;> simp [firstLoadCodeSpec]

/-- C4 (amended): for every sequence of surface lifecycle events,
`onFirstLoad` fires at most once, and it fires exactly when the *first*
`did-start-loading` signal occurs while the surface is not destroyed and a
session reference is obtainable at that very signal, carrying that
reference; if acquisition fails at the first signal — or the surface is
destroyed before it — it never fires, even if a later signal occurs while
a reference is obtainable. -/
theorem C4_first_load_once_at_first_signal (evs : List TagEvent) :
    (tagRun evs).fired = firstLoadCodeSpec evs false ∧
    (tagRun evs).fired.length ≤ 1 := by
  have h : (tagRun evs).fired = firstLoadCodeSpec evs false := by
    have := tagRun_fresh evs false
    simpa [tagRun, initTagHandle] using this
  exact ⟨h, h ▸ firstLoadCodeSpec_length evs false⟩

/-! ## The `webContents` accessor's caching discipline (claim C5)

We run the getter over sequences of accessor calls interleaved with
destroy notifications.  `webContentsGet` above is the exact embedding of
lines 67-76: note that a failed acquisition stores `undefined` back into
`_webContents`, which is indistinguishable from the unset field, so the
next access re-attempts acquisition. -/

/-- An interaction with the handle: an accessor call (with what the peer
would return at that instant) or the `'destroyed'` notification. -/
inductive AccessEvent where
  | access (peer : Option Nat)
  | destroyNote
deriving DecidableEq, Repr

/-- Run the `_webContents` field over a sequence of interactions,
collecting the result of every accessor call. -/
def accessRun (c : CachedContents) : List AccessEvent → CachedContents × List (Option Nat)
  | [] => (c, [])
  | .access peer :: rest =>
    let r := webContentsGet peer c
    let p := accessRun r.2 rest
    (p.1, r.1 :: p.2)
  | .destroyNote :: rest => accessRun .destroyedSentinel rest

/-- The cache discipline claim C5 asserts, stated as a definition: the
first access caches its result *whether it succeeded or failed*, and that
cached result is returned until a destroy notification invalidates it. -/
inductive CachedClaim where
  | unsetC
  | destroyedC
  | resultC (r : Option Nat)
deriving DecidableEq, Repr

/-- The accessor under claim C5's reading: success and failure are both
cached. -/
def webContentsGetClaim (peer : Option Nat) (c : CachedClaim) :
    Option Nat × CachedClaim :=
  match c with
  | .destroyedC => (none, .destroyedC)
  | .resultC r => (r, .resultC r)
  | .unsetC => (peer, .resultC peer)

theorem C5_cache_failure_counterexample :
    (webContentsGet (some 7) (webContentsGet none .unset).2).1 = some 7 ∧
    (webContentsGetClaim (some 7) (webContentsGetClaim none .unsetC).2).1 = none ∧
    (accessRun .unset [.access none, .access (some 7)]).2 = [none, some 7] := by
  refine ⟨rfl, rfl, rfl⟩

theorem accessRun_destroyed (evs : List AccessEvent) :
    ∀ r ∈ (accessRun .destroyedSentinel evs).2, r = none := by
  induction evs with
  | nil => intro r hr; simp [accessRun] at hr
  | cons e rest ih =>
    intro r hr
    cases e with
    | access peer =>
      simp only [accessRun, webContentsGet, List.mem_cons] at hr
      rcases hr with hr | hr
      · exact hr
      · exact ih r hr
    | destroyNote =>
      simp only [accessRun] at hr
      exact ih r hr

theorem accessRun_cached (evs : List AccessEvent) :
    ∀ w : Nat, AccessEvent.destroyNote ∉ evs →
      ∀ r ∈ (accessRun (.cached w) evs).2, r = some w := by
  induction evs with
  | nil => intro w _ r hr; simp [accessRun] at hr
  | cons e rest ih =>
    intro w hno r hr
    cases e with
    | access peer =>
      simp only [accessRun, webContentsGet, List.mem_cons] at hr
      rcases hr with hr | hr
      · exact hr
      · exact ih w (fun hmem => hno (List.mem_cons_of_mem _ hmem)) r hr
    | destroyNote => exact absurd (List.mem_cons_self _ _) hno

/-- C5 (amended): after a destroy notification the accessor returns
`undefined` on every subsequent call regardless of the peer state, and a
successfully acquired reference is cached and returned on every later call
(until a destroy notification); but a *failed* first acquisition is not
cached — the field stays unset and the very next access re-attempts
acquisition, returning whatever the peer then yields. -/
theorem C5_accessor_caches_success_only :
    (∀ (c : CachedContents) (evs : List AccessEvent),
       ∀ r ∈ (accessRun c (.destroyNote :: evs)).2, r = none) ∧
    (∀ (w : Nat) (evs : List AccessEvent), AccessEvent.destroyNote ∉ evs →
       ∀ r ∈ (accessRun (.cached w) evs).2, r = some w) ∧
    (∀ p1 p2 : Option Nat,
       (accessRun .unset [.access p1, .access p2]).2 =
         [p1, match p1 with | some w => some w | none => p2]) := by
  refine ⟨?_, ?_, ?_⟩
  · intro c evs r hr
    simp only [accessRun] at hr
    exact accessRun_destroyed evs r hr
  · intro w evs hno r hr
    exact accessRun_cached evs w hno r hr
  · intro p1 p2
    cases p1 <;> cases p2 <;> rfl

theorem C5_accessor_caches_success_only_witness :
    ((none : Option Nat) = none) ∧
    ((some 3 : Option Nat) = some 3) ∧
    (accessRun .unset [.access none, .access (some 7)]).2 = [none, some 7] := by
  have h := C5_accessor_caches_success_only
  refine ⟨?_, ?_, ?_⟩
  · exact h.1 (.cached 4) [.access (some 9)] none
      (by simp [accessRun, webContentsGet])
  · exact h.2.1 3 [.access none] (by simp) (some 3)
      (by simp [accessRun, webContentsGet])
  · exact h.2.2 none (some 7)

/-! ## ElectronWebviewBasedWebview: content descriptor and push (lines 431-467)

Each setter rebuilds `this.content` keeping the other two fields; `html`
and (for changed options) `contentOptions` then call `doUpdateContent`,
which sends one `content` message carrying the full descriptor; the
`state` setter never pushes. -/

/-- The `WebviewContentOptions` fields the setters and accessors of this
file touch. -/
structure WebviewContentOptions where
  allowScripts : Bool
  localResourceRoots : List (List String)
  portMapping : List (Nat × Nat)
deriving DecidableEq, Repr

/-- The `WebviewContent` descriptor (lines 231-235). -/
structure WebviewContent where
  html : String
  options : WebviewContentOptions
  state : Option String
deriving DecidableEq, Repr

/-- Modelled from the spec: `areWebviewInputOptionsEqual` (imported from
`browser/webviewWorkbenchService.ts`, not under `src/`) is a deep
(structural) equality check on content options, not an identity check. -/
def areWebviewInputOptionsEqual (a b : WebviewContentOptions) : Bool :=
  decide (a = b)

/-- An outbound `content` message: the full descriptor pushed in one
message (`doUpdateContent`, lines 461-467). -/
inductive OutboundMessage where
  | content (contents : String) (options : WebviewContentOptions)
      (state : Option String)
deriving DecidableEq, Repr

/-- `doUpdateContent` (lines 461-467): one `content` message carrying the
whole current descriptor. -/
def doUpdateContent (c : WebviewContent) : List OutboundMessage :=
  [.content c.html c.options c.state]

/-- The `state` setter (lines 431-437): replaces the state field, no
push. -/
def setState (c : WebviewContent) (s : Option String) :
    WebviewContent × List OutboundMessage :=
  ({ html := c.html, options := c.options, state := s }, [])

/-- The `contentOptions` setter (lines 439-450): no-op when the new options
are deep-equal to the current ones, otherwise replaces the options field
and pushes. -/
def setContentOptions (c : WebviewContent) (o : WebviewContentOptions) :
    WebviewContent × List OutboundMessage :=
  if areWebviewInputOptionsEqual o c.options then (c, [])
  else
    let c2 : WebviewContent := { html := c.html, options := o, state := c.state }
    (c2, doUpdateContent c2)

/-- The `html` setter (lines 452-459): replaces the html field and
pushes. -/
def setHtml (c : WebviewContent) (v : String) :
    WebviewContent × List OutboundMessage :=
  let c2 : WebviewContent := { html := v, options := c.options, state := c.state }
  (c2, doUpdateContent c2)

/-- C6: each single-field descriptor update produces a new descriptor in
which the other two fields are unchanged: `setState` preserves html and
options, `setHtml` preserves options and state, and `setContentOptions`
preserves html and state (in both its branches). -/
theorem C6_single_field_update_preserves_others :
    (∀ (c : WebviewContent) (s : Option String),
       (setState c s).1.html = c.html ∧ (setState c s).1.options = c.options) ∧
    (∀ (c : WebviewContent) (v : String),
       (setHtml c v).1.options = c.options ∧ (setHtml c v).1.state = c.state) ∧
    (∀ (c : WebviewContent) (o : WebviewContentOptions),
       (setContentOptions c o).1.html = c.html ∧
       (setContentOptions c o).1.state = c.state) := by
  refine ⟨fun c s => ⟨rfl, rfl⟩, fun c v => ⟨rfl, rfl⟩, fun c o => ?_⟩
  unfold setContentOptions
  split <;> exact ⟨rfl, rfl⟩

/-- C7: every content push is one `content` message carrying the full
current descriptor; every `setHtml` call pushes exactly one such message
(two successive `setHtml` calls push exactly two, each with the descriptor
at that moment — no coalescing); `setContentOptions` with deep-equal
options is a no-op (descriptor unchanged, no push) and with changed
options pushes exactly one full-descriptor message; `setState` never
pushes. -/
theorem C7_content_push_whole_state :
    (∀ (c : WebviewContent) (v : String),
       (setHtml c v).2 = [.content v c.options c.state]) ∧
    (∀ (c : WebviewContent) (a b : String),
       (setHtml c a).2 ++ (setHtml (setHtml c a).1 b).2 =
         [.content a c.options c.state, .content b c.options c.state]) ∧
    (∀ (c : WebviewContent) (o : WebviewContentOptions),
       areWebviewInputOptionsEqual o c.options = true →
       setContentOptions c o = (c, [])) ∧
    (∀ (c : WebviewContent) (o : WebviewContentOptions),
       areWebviewInputOptionsEqual o c.options = false →
       (setContentOptions c o).1 =
         { html := c.html, options := o, state := c.state } ∧
       (setContentOptions c o).2 = [.content c.html o c.state]) ∧
    (∀ (c : WebviewContent) (s : Option String), (setState c s).2 = []) := by
  refine ⟨fun c v => rfl, fun c a b => rfl, ?_, ?_, fun c s => rfl⟩
  · intro c o h
    simp [setContentOptions, h]
  · intro c o h
    constructor <;> simp [setContentOptions, doUpdateContent, h]

/-- Sample content options for concrete evaluations. -/
def optionsSample : WebviewContentOptions :=
  { allowScripts := true, localResourceRoots := [], portMapping := [] }

/-- A second, different sample of content options. -/
def optionsOther : WebviewContentOptions :=
  { allowScripts := false, localResourceRoots := [], portMapping := [] }

/-- Sample content descriptor for concrete evaluations. -/
def contentSample : WebviewContent :=
  { html := "h", options := optionsSample, state := none }

theorem C7_content_push_whole_state_witness :
    setContentOptions contentSample optionsSample = (contentSample, []) ∧
    (setContentOptions contentSample optionsOther).1 =
      { html := "h", options := optionsOther, state := none } ∧
    (setContentOptions contentSample optionsOther).2 =
      [.content "h" optionsOther none] ∧
    (setHtml contentSample "a").2 ++
        (setHtml (setHtml contentSample "a").1 "b").2 =
      [.content "a" optionsSample none, .content "b" optionsSample none] := by
  have h := C7_content_push_whole_state
  refine ⟨?_, ?_, ?_, ?_⟩
  · exact h.2.2.1 contentSample optionsSample (by decide)
  · exact (h.2.2.2.1 contentSample optionsOther (by decide)).1
  · exact (h.2.2.2.1 contentSample optionsOther (by decide)).2
  · exact h.2.1 contentSample "a" "b"

/-! ## Focus bridging (lines 346-352, 469-489)

`handleFocusChange(isFocused)` (lines 484-489) assigns `_focused` and fires
`_onDidFocus` whenever `isFocused` is true — there is no transition check.
Inbound `did-focus` / `did-blur` signals (lines 346-352) call it with
`true` / `false`. -/

inductive FocusSignal where
  | didFocus
  | didBlur
deriving DecidableEq, Repr

/-- `handleFocusChange` (lines 484-489): new `_focused` value and the
`_onDidFocus` firings it causes. -/
def handleFocusChange (_focused : Bool) (isFocused : Bool) :
    Bool × List Unit :=
  (isFocused, if isFocused then [()] else [])

/-- The inbound `did-focus` / `did-blur` handlers (lines 346-352). -/
def focusStep (focused : Bool) (sig : FocusSignal) : Bool × List Unit :=
  match sig with
  | .didFocus => handleFocusChange focused true
  | .didBlur => handleFocusChange focused false

/-- Run the focus bridge over a sequence of inbound signals, collecting
all `_onDidFocus` firings. -/
def focusRun (focused : Bool) : List FocusSignal → Bool × List Unit
  | [] => (focused, [])
  | s :: rest =>
    let r := focusStep focused s
    let p := focusRun r.1 rest
    (p.1, r.2 ++ p.2)

/-- `handleFocusChange` under claim C8's reading: fire only on the
false-to-true transition. -/
def handleFocusChangeClaim (focused : Bool) (isFocused : Bool) :
    Bool × List Unit :=
  (isFocused, if isFocused && !focused then [()] else [])

/-- The focus bridge under claim C8's reading. -/
def focusRunClaim (focused : Bool) : List FocusSignal → Bool × List Unit
  | [] => (focused, [])
  | s :: rest =>
    let r := match s with
      | .didFocus => handleFocusChangeClaim focused true
      | .didBlur => handleFocusChangeClaim focused false
    let p := focusRunClaim r.1 rest
    (p.1, r.2 ++ p.2)

def isDidFocus : FocusSignal → Bool
  | .didFocus => true
  | .didBlur => false

theorem C8_focus_counterexample :
    (focusRun false [.didFocus, .didFocus]).2.length = 2 ∧
    (focusRunClaim false [.didFocus, .didFocus]).2.length = 1 := by
  constructor <;> rfl

/-- C8 (amended): an inbound `did-focus` signal sets the focused flag to
true and fires the focus notification *unconditionally* — there is no
false-to-true transition check, so over any signal sequence the
notification fires exactly once per `did-focus` signal (a repeated focus
signal while already focused fires again), and `did-blur` never fires
it. -/
theorem C8_focus_fires_every_signal :
    (∀ focused : Bool, focusStep focused .didFocus = (true, [()]) ∧
       focusStep focused .didBlur = (false, [])) ∧
    (∀ (focused : Bool) (sigs : List FocusSignal),
       (focusRun focused sigs).2.length = sigs.countP isDidFocus) := by
  constructor
  · intro focused; exact ⟨rfl, rfl⟩
  · intro focused sigs
    induction sigs generalizing focused with
    | nil => simp [focusRun]
    | cons s rest ih =>
      cases s <;>
        simp [focusRun, focusStep, handleFocusChange, ih, List.countP_cons,
          isDidFocus]

/-! ## Find protocol (lines 579-586)

`stopFind(keepSelection)` first fires `_hasFindResult` with `false`;
if the webview element is gone it returns there, otherwise it resets
`_findStarted` and issues `stopFindInPage`. -/

/-- The find-session state owned by the bridge: the `_findStarted` flag. -/
structure FindState where
  findStarted : Bool
deriving DecidableEq, Repr

/-- Observable effects of the find API: `_hasFindResult` firings and calls
into the webview element. -/
inductive FindEffect where
  | hasFindResult (b : Bool)
  | stopFindInPage (keepSelection : Bool)
deriving DecidableEq, Repr

/-- `stopFind` (lines 579-586).  `hasElement` embeds the
`if (!this.element) return;` guard. -/
def stopFind (hasElement : Bool) (st : FindState) (keepSelection : Bool) :
    FindState × List FindEffect :=
  let fired := [FindEffect.hasFindResult false]
  if !hasElement then (st, fired)
  else ({ findStarted := false },
        fired ++ [FindEffect.stopFindInPage keepSelection])

/-- C9: from every prior find-session state — started or never started —
`stopFind` first emits a false "has result" signal (unconditionally, even
with no element), and with a live element it always leaves the session in
NotStarted (`findStarted = false`); it is idempotent: calling it again
from NotStarted re-establishes exactly the same postcondition. -/
theorem C9_stop_find_resets_and_signals :
    (∀ (hasElement : Bool) (st : FindState) (keepSelection : Bool),
       ((stopFind hasElement st keepSelection).2).head? =
         some (.hasFindResult false)) ∧
    (∀ (st : FindState) (keepSelection : Bool),
       (stopFind true st keepSelection).1 = { findStarted := false }) ∧
    (∀ (st : FindState) (keep1 keep2 : Bool),
       stopFind true (stopFind true st keep1).1 keep2 =
         ({ findStarted := false },
          [.hasFindResult false, .stopFindInPage keep2])) := by
  refine ⟨?_, fun st keepSelection => rfl, fun st keep1 keep2 => rfl⟩
  intro hasElement st keepSelection
  cases hasElement <;> rfl

/-! ## The `on` channel dispatcher (lines 646-658)

`on(channel, handler)` returns a no-op disposable when the element is
gone, and otherwise registers an `ipc-message` listener that invokes the
handler with `event.args[0]` only when the event's channel matches exactly
and `event.args` is present and non-empty. -/

/-- An inbound `ipc-message` event: a channel name and, possibly, an
argument list (absent `args` embeds a missing `event.args`). -/
structure IpcMessageEvent where
  channel : String
  args : Option (List String)
deriving DecidableEq, Repr

/-- The dispatch decision of `on` (lines 646-658): `some p` means the
handler is invoked with payload `p`; `none` means it is not invoked.
`hasElement` embeds both element guards (registration-time and
event-time). -/
def onDispatch (hasElement : Bool) (channel : String)
    (event : IpcMessageEvent) : Option String :=
  if hasElement then
    if event.channel = channel then
      match event.args with
      | some (a :: _) => some a
      | _ => none
    else none
  else none

/-- C10: a subscriber registered via `on(channel, handler)` is invoked only
for inbound events whose channel matches exactly and whose argument list is
present and non-empty, and it receives exactly the first argument; hence an
inbound event carrying no argument never reaches any subscriber — including
on the declared no-payload channels `did-focus`, `did-blur`, `do-reload`,
`did-set-content` and `no-csp-found`. -/
theorem C10_on_dispatch_requires_first_arg :
    (∀ (hasElement : Bool) (channel : String) (event : IpcMessageEvent)
       (p : String),
       onDispatch hasElement channel event = some p →
       hasElement = true ∧ event.channel = channel ∧
       ∃ rest, event.args = some (p :: rest)) ∧
    (∀ (hasElement : Bool) (channel chEv : String),
       onDispatch hasElement channel { channel := chEv, args := none } = none ∧
       onDispatch hasElement channel { channel := chEv, args := some [] } = none) ∧
    (∀ ch ∈ ["did-focus", "did-blur", "do-reload", "did-set-content",
             "no-csp-found"],
       ∀ hasElement : Bool,
       onDispatch hasElement ch { channel := ch, args := none } = none) := by
  refine ⟨?_, ?_, ?_⟩
  · intro hasElement channel event p h
    cases hasElement with
    | false => simp [onDispatch] at h
    | true =>
      simp only [onDispatch, if_true] at h
      by_cases hch : event.channel = channel
      · rw [if_pos hch] at h
        refine ⟨rfl, hch, ?_⟩
        rcases hargs : event.args with _ | ⟨_ | ⟨a, rest⟩⟩ <;> rw [hargs] at h
        · exact absurd h (by simp)
        · exact absurd h (by simp)
        · have hap : a = p := by simpa using h
          exact ⟨rest, by rw [hap]⟩
      · rw [if_neg hch] at h
        exact absurd h (by simp)
  · intro hasElement channel chEv
    constructor <;> (cases hasElement <;> simp [onDispatch])
  · intro ch _ hasElement
    cases hasElement <;> simp [onDispatch]

theorem C10_on_dispatch_requires_first_arg_witness :
    (true = true ∧ ("message" : String) = "message" ∧
      ∃ rest, (some ["payload", "extra"] : Option (List String)) =
        some ("payload" :: rest)) ∧
    onDispatch true "did-focus" { channel := "did-focus", args := none } = none := by
  have h := C10_on_dispatch_requires_first_arg
  constructor
  · exact h.1 true "message" { channel := "message", args := some ["payload", "extra"] }
      "payload" rfl
  · exact h.2.2 "did-focus" (by simp) true

end WebviewElement
